import Mathlib

/-!
Verification of `teuthology/suite.py` (the test-matrix compiler, selection
filter, run orchestrator, and result classifier of the suite tool).

The Python source is shallowly embedded as executable Lean definitions:

* the filesystem subtree handed to `build_matrix` becomes the inductive
  `Entry` (regular file with its text, directory with its named children,
  or any other kind of node);
* Python values that can be either a string or a list of strings (the
  combination "content" slot) become the inductive `Val`;
* fallible Python code returns `Except PyError`, with one constructor per
  kind of exception the modelled code can raise;
* `sorted` on strings is modelled by a stable insertion sort over the
  byte/code-point order (`strLe`), matching CPython list.sort semantics on
  the ASCII names involved;
* `build_matrix` sorts each directory listing before recursing exactly as
  `sorted(os.listdir(path))` does.  To keep the definition executable by
  the kernel it is phrased as a normalisation pass `sortTree` (sorting
  every directory listing, which the Python code does on entry to each
  recursive call) followed by the structurally recursive compiler `bm`;
  `build_matrix` is their composition.  `files.remove(marker)` (removal of
  the first occurrence of the marker name) is modelled by the `skip`
  argument of `bmKids`, which skips the first child carrying the marker
  name.
-/

/-! ## Small Python-flavoured string primitives -/

/-- Lexicographic comparison of character lists by code point, the order
`sorted` uses on the (ASCII) path names involved.  (UTF-8 byte order and
code-point order agree, so this also matches Python 2 byte strings.) -/
def charListLe : List Char → List Char → Bool
  | [], _ => true
  | _ :: _, [] => false
  | x :: xs, y :: ys =>
      if x.val < y.val then true
      else if y.val < x.val then false
      else charListLe xs ys

/-- `a <= b` for strings, as Python compares them. -/
def strLe (a b : String) : Bool :=
  charListLe a.data b.data

/-- `s.endswith(suf)`. -/
def strEndsWith (s suf : String) : Bool :=
  suf.data.isSuffixOf s.data

/-- Stable insertion into a list sorted by a string key: the new element is
placed before the first strictly-larger key and after equal keys already
present when it arrives last, matching the stability of `sorted`. -/
def pyInsert (key : α → String) (x : α) : List α → List α
  | [] => [x]
  | y :: ys => if strLe (key x) (key y) then x :: y :: ys else y :: pyInsert key x ys

/-- `sorted(l, key=key)`: stable sort by a string key. -/
def pySorted (key : α → String) : List α → List α
  | [] => []
  | x :: xs => pyInsert key x (pySorted key xs)

/-- `os.path.join(a, b)` for POSIX paths restricted to the two-argument
form the source uses. -/
def ospath_join (a b : String) : String :=
  if b.data.head? = some '/' then b
  else if a = "" ∨ strEndsWith a "/" then a ++ b
  else a ++ "/" ++ b

/-- `os.path.split(s)[-1]`: the final path component. -/
def ospath_basename (s : String) : String :=
  String.mk ((s.data.reverse.takeWhile (fun c => !(c == '/'))).reverse)

/-- `str.splitlines` restricted to `\n` terminators (the only terminator
produced by the modelled code): splits on newlines, without a trailing
empty line for a trailing newline. -/
def pySplitlinesNL (s : String) : List String :=
  let parts := (s.data.splitOnP (· == '\n')).map String.mk
  match parts.getLast? with
  | some "" => parts.dropLast
  | _ => parts

/-! ## Data model of the matrix compiler -/

/-- A filesystem node as `build_matrix` observes it through `os.stat`:
a regular file (with its text), a directory (with its named children), or
any other kind of node (neither `S_ISREG` nor `S_ISDIR`). -/
inductive Entry where
  | file (content : String)
  | dir (children : List (String × Entry))
  | other
deriving Repr

/-- A Python value sitting in the "content" slot of a combination: the
code stores strings everywhere except in the Concat branch, which wraps
its joined string in a singleton list. -/
inductive Val where
  | str (s : String)
  | lst (xs : List Val)
deriving Repr

/-- The kinds of exception the modelled code can raise. -/
inductive PyError where
  | nameError
  | typeError
  | keyError
  | attributeError
  | yamlError
deriving Repr, DecidableEq

/-- A combination `(name-fragment-or-None, content)` as built by
`build_matrix`. -/
abbrev Comb := Option String × Val

/-- `combine_path(left, right)` from suite.py lines 202-208: join unless
`right` is falsy (`None` or the empty string). -/
def combine_path (left : String) (right : Option String) : String :=
  match right with
  | some r => if r = "" then left else ospath_join left r
  | none => left

/-- Evaluate one element of a `str.join` argument: joining raises
`TypeError` on any non-string element. -/
def asStr : Val → Except PyError String
  | .str s => .ok s
  | .lst _ => .error .typeError

/-- Left-to-right effectful map over `Except`, stopping at the first
raised exception, the way a Python loop or comprehension does. -/
def exMap (g : α → Except PyError β) : List α → Except PyError (List β)
  | [] => .ok []
  | a :: rest =>
      match g a with
      | .error err => .error err
      | .ok b =>
          match exMap g rest with
          | .error err => .error err
          | .ok bs => .ok (b :: bs)

/-- `sep.join(xs)` over possibly non-string elements. -/
def pyJoin (sep : String) (xs : List Val) : Except PyError String :=
  match exMap asStr xs with
  | .error err => .error err
  | .ok ss => .ok (String.intercalate sep ss)

/-- `itertools.product(*items)`: tuples in lexicographic order of factor
indices, so the last factor varies fastest. -/
def listProduct : List (List α) → List (List α)
  | [] => [[]]
  | l :: ls => (l.map (fun x => (listProduct ls).map (x :: ·))).flatten

/-- Concat branch of `build_matrix` (suite.py lines 222-232) applied to
the per-child raw combination lists: flatten them, join all their contents
with newlines, and return the single `('+', [joined])` combination.  Note
the source wraps the joined string in a one-element Python list. -/
def concat_combine (rs : List (String × List Comb)) : Except PyError (Option (List Comb)) :=
  match pyJoin "\n" (((rs.map Prod.snd).flatten).map Prod.snd) with
  | .error err => .error err
  | .ok joined => .ok (some [(some "+", Val.lst [Val.str joined])])

/-- One tuple of the Convolve product (suite.py lines 242-245): brace-wrap
the space-joined names and newline-join the contents. -/
def tupleComb (a : List (String × Val)) : Except PyError Comb :=
  match pyJoin "\n" (a.map Prod.snd) with
  | .error err => .error err
  | .ok v => .ok (some ("\x7b" ++ String.intercalate " " (a.map Prod.fst) ++ "\x7d"), Val.str v)

/-- Convolve branch of `build_matrix` (suite.py lines 233-246) applied to
the per-child raw combination lists: re-tag each child list with
`combine_path(fn, ...)`, take the Cartesian product, and build one
combination per tuple. -/
def convolve_combine (rs : List (String × List Comb)) : Except PyError (Option (List Comb)) :=
  match exMap tupleComb
      (listProduct (rs.map (fun p => p.2.map (fun a => (combine_path p.1 a.1, a.2))))) with
  | .error err => .error err
  | .ok out => .ok (some out)

/-- List branch of `build_matrix` (suite.py lines 247-254) applied to the
per-child raw combination lists: re-tag and concatenate. -/
def list_combine (rs : List (String × List Comb)) : Except PyError (Option (List Comb)) :=
  .ok (some ((rs.map (fun p =>
    p.2.map (fun a => ((some (combine_path p.1 a.1) : Option String), a.2)))).flatten))

mutual
/-- Normalisation pass: sort every directory listing with `sorted`, which
the Python code performs on entry to each recursive `build_matrix` call
(`files = sorted(os.listdir(path))`). -/
def sortTree : Entry → Entry
  | .file c => .file c
  | .other => .other
  | .dir children => .dir (pySorted Prod.fst (sortKids children))

def sortKids : List (String × Entry) → List (String × Entry)
  | [] => []
  | (fn, e) :: rest => (fn, sortTree e) :: sortKids rest
end

mutual
/-- `build_matrix(path)` (suite.py lines 210-254) on a tree whose listings
are already sorted: a regular `.yaml` file yields `[(None, text)]`; a
regular non-`.yaml` file and any non-file non-directory node fall through
and return Python `None` (modelled `Except.ok none`); a directory
dispatches on the `+` / `%` marker entries.  The `stat` module the source
forgot to import is taken to denote the standard `stat` module here; the
unresolved-name behaviour of the module as written is modelled separately
by `build_matrix_call`. -/
def bm (name : String) (e : Entry) : Except PyError (Option (List Comb)) :=
  match e with
  | .file content =>
      if strEndsWith name ".yaml" then .ok (some [(none, Val.str content)]) else .ok none
  | .other => .ok none
  | .dir children =>
      if (children.map Prod.fst).contains "+" then
        match bmKids (some "+") children with
        | .error err => .error err
        | .ok rs => concat_combine rs
      else if (children.map Prod.fst).contains "%" then
        match bmKids (some "%") children with
        | .error err => .error err
        | .ok rs => convolve_combine rs
      else
        match bmKids none children with
        | .error err => .error err
        | .ok rs => list_combine rs

/-- Compile the children of a directory in listing order, skipping the
first child named `skip` (this models `files.remove(marker)`, which
removes the first occurrence of the marker from the listing).  Each child
must produce a combination list: a child that falls through and returns
`None` makes the surrounding `out.extend(...)` / list comprehension raise
`TypeError`, and exceptions propagate. -/
def bmKids (skip : Option String) (l : List (String × Entry)) :
    Except PyError (List (String × List Comb)) :=
  match l with
  | [] => .ok []
  | (fn, e) :: rest =>
      if skip == some fn then bmKids none rest
      else
        match bm fn e with
        | .error err => .error err
        | .ok none => .error PyError.typeError
        | .ok (some combs) =>
            match bmKids skip rest with
            | .error err => .error err
            | .ok others => .ok ((fn, combs) :: others)
end

/-- `build_matrix(path)` on an arbitrary tree: sort all listings the way
each recursive call does, then compile.  `name` is the final component of
`path`, which is what the `path.endswith('.yaml')` test inspects for
entries produced by `os.listdir`. -/
def build_matrix (name : String) (e : Entry) : Except PyError (Option (List Comb)) :=
  bm name (sortTree e)

/-! ## Module-level name resolution (the missing `import stat`) -/

/-- The names bound at module level in `teuthology/suite.py`: the imports
of lines 5-22 (including the `from ... import` bindings) and the
module-level definitions. -/
def suite_module_globals : List String :=
  ["argparse", "copy", "errno", "itertools", "logging", "os", "re",
   "subprocess", "sys", "tempfile", "dedent", "fill", "time", "yaml",
   "teuthology", "safepath", "lock", "config", "log",
   "main", "combine_path", "build_matrix", "ls", "generate_coverage",
   "email_results", "results", "_results", "get_http_log_path",
   "get_jobs", "email_templates", "build_email_body", "get_arch",
   "get_os_type", "get_exclude_arch", "get_exclude_os_type",
   "get_machine_type"]

/-- The Python 2 builtins referenced by this module (the fallback scope
after module globals). -/
def python2_builtins : List String :=
  ["sorted", "file", "open", "len", "int", "str", "print", "IOError"]

/-- The global (non-local) names the body of `build_matrix` refers to. -/
def build_matrix_referenced_globals : List String :=
  ["os", "stat", "file", "sorted", "itertools", "combine_path", "build_matrix"]

/-- Python name lookup for a global reference inside this module:
module globals, then builtins. -/
def name_resolves (n : String) : Bool :=
  suite_module_globals.contains n || python2_builtins.contains n

/-- A call of `build_matrix` as the module actually executes it: the first
branch test evaluates `stat.S_ISREG(mode)`, which begins by resolving the
name `stat`; if that fails the call raises `NameError` before anything is
returned. -/
def build_matrix_call (name : String) (e : Entry) : Except PyError (Option (List Comb)) :=
  if name_resolves "stat" then build_matrix name e else .error .nameError

/-! ## Selection filter (main, suite.py lines 136-164) -/

/-- The keys the filter reads out of one combination's parsed YAML. -/
structure JobConfig where
  os_type : Option String
  exclude_arch : Option String
  exclude_os_type : Option String
deriving Repr, DecidableEq

/-- Python truthiness of an optional string: `None` and `''` are falsy. -/
def truthy : Option String → Bool
  | none => false
  | some s => !(s == "")

/-- The skip decision of the scheduling loop (suite.py lines 145-164):
three tests in order, each `continue`-ing (skipping the combination) when
it fires; a combination surviving all three is dispatched. -/
def should_skip (y : JobConfig) (arch : Option String) (machine_type : Option String) : Bool :=
  if truthy y.exclude_arch && y.exclude_arch == arch then true
  else if truthy y.exclude_os_type && y.exclude_os_type == y.os_type then true
  else if !(machine_type == some "vps") && (truthy y.os_type && !(y.os_type == some "ubuntu")) then true
  else false

/-! ## Run orchestrator external calls (main, suite.py lines 166-199) -/

/-- An external scheduler invocation (`subprocess.check_call` of
`teuthology-schedule`). -/
inductive SchedCall where
  | schedule_job (description : String)
  | schedule_last_in_suite
deriving Repr, DecidableEq

/-- The per-combination scheduler calls of the main loop, for the
combinations that survive the selection filter: suppressed one by one
under `--dry-run` (suite.py lines 182-187). -/
def job_dispatch_calls (dry_run : Bool) (descriptions : List String) : List SchedCall :=
  (descriptions.map (fun d => if dry_run then [] else [SchedCall.schedule_job d])).flatten

/-- All external scheduler calls `main` makes after filtering: the
per-combination dispatches, then the final `--last-in-suite` sentinel call
of suite.py lines 191-199, which is executed unconditionally. -/
def main_dispatch_calls (dry_run : Bool) (descriptions : List String) : List SchedCall :=
  job_dispatch_calls dry_run descriptions ++ [SchedCall.schedule_last_in_suite]

/-! ## Result classifier (get_jobs / build_email_body) -/

/-- The fields of one parsed `summary.yaml` that the classifier reads;
each is `none` when the key is missing from the document. -/
structure Summary where
  success : Option Bool
  description : Option String
  duration : Option Int
  failure_reason : Option String
  sentry_events : Option (List String)
deriving Repr, DecidableEq

/-- The state of one job directory's `summary.yaml`: missing, present but
not parseable as YAML, or parsed. -/
inductive OutcomeFile where
  | absent
  | malformed
  | doc (s : Summary)
deriving Repr, DecidableEq

/-- One entry of the archive directory: a non-directory entry, or a
subdirectory with the state of its outcome file. -/
inductive AEntry where
  | afile
  | adir (outcome : OutcomeFile)
deriving Repr, DecidableEq

/-- The archive directory: named entries as `os.listdir` yields them. -/
abbrev Archive := List (String × AEntry)

/-- `is_job_dir` from `get_jobs` (suite.py lines 452-455): a directory
whose name matches `\d+$` (nonempty, all ASCII digits). -/
def is_job_dir (subdir : String) (e : AEntry) : Bool :=
  (match e with | .afile => false | .adir _ => true)
    && !(subdir.data.isEmpty) && subdir.data.all Char.isDigit

/-- `get_jobs(archive_dir)` (suite.py lines 449-458): the job directory
names, sorted with `sorted` (string comparison). -/
def get_jobs (archive : Archive) : List String :=
  pySorted (fun s => s) ((archive.filter (fun p => is_job_dir p.1 p.2)).map Prod.fst)

/-- `get_http_log_path` (suite.py lines 441-446), with the configured
`config.archive_server` passed explicitly. -/
def get_http_log_path (archive_server : Option String) (archive_dir : String)
    (job_id : String) : Option String :=
  match archive_server with
  | none => none
  | some base =>
      if base = "" then none
      else some (ospath_join (ospath_join base (ospath_basename archive_dir)) job_id)

/-- `str(x)` of an optional string as `str.format` renders it: missing
values print as `None`. -/
def pyStr : Option String → String
  | none => "None"
  | some s => s

/-- The 65-dash separator line of `fail_templ`. -/
def sepline : String :=
  "-----------------------------------------------------------------"

/-- `hung_templ` instantiated. -/
def hung_templ_format (job_id : String) : String :=
  "[" ++ job_id ++ "]\n"

/-- `pass_templ` instantiated. -/
def pass_templ_format (job_id desc : String) (time : Int) : String :=
  "[" ++ job_id ++ "] " ++ desc ++ "\ntime:    " ++ toString time ++ "s\n\n"

/-- `fail_templ` instantiated. -/
def fail_templ_format (job_id desc : String) (time : Int)
    (log_line sentry_line reason : String) : String :=
  "[" ++ job_id ++ "]  " ++ desc ++ "\n" ++ sepline ++ "\ntime:   " ++ toString time ++ "s"
    ++ log_line ++ sentry_line ++ "\n\n" ++ reason ++ "\n\n"

/-- The `log_line` of a failed entry (suite.py lines 524-528). -/
def log_line_of (archive_server : Option String) (archive_dir job : String) : String :=
  match get_http_log_path archive_server archive_dir job with
  | some l => if l = "" then "" else "\nlog:    " ++ l
  | none => ""

/-- The `sentry_line` of a failed entry (suite.py lines 529-534); an
absent or empty `sentry_events` list is falsy. -/
def sentry_line_of (evs : Option (List String)) : String :=
  match evs with
  | some es => if es.isEmpty then "" else "\nsentry: " ++ String.intercalate "\n        " es
  | none => ""

/-- Lines 540-541: wrap the failure reason with `fill(.., 75)` (modelled
by the abstract line-wrapping function `fillFn`, an external `textwrap`
collaborator), then indent every resulting line by four spaces. -/
def indent_reason (fillFn : String → String) (r : String) : String :=
  String.intercalate "\n" ((pySplitlinesNL (fillFn r)).map (fun line => "    " ++ line))

/-- The three classification tables of `build_email_body`, in insertion
order (enumeration order of `get_jobs`). -/
structure Classified where
  failed : List (String × String)
  hung : List (String × String)
  passed : List (String × String)
deriving Repr, DecidableEq

/-- The outcome file found under one enumerated job name. -/
def outcome_of (archive : Archive) (job : String) : OutcomeFile :=
  match List.lookup job archive with
  | some (.adir oc) => oc
  | _ => .absent

/-- One iteration of the `build_email_body` job loop (suite.py lines
505-550): no outcome file puts the job in `hung`; an unparseable outcome
file raises; `summary['success']` raises `KeyError` when missing, selects
`passed` when truthy, otherwise the failed entry is rendered, where
`fill(None, 75)` raises `AttributeError` when `failure_reason` is missing
and `int(None)` raises `TypeError` when `duration` is missing. -/
def classify_job (fillFn : String → String) (archive_server : Option String)
    (archive_dir : String) (acc : Classified) (job : String) (oc : OutcomeFile) :
    Except PyError Classified :=
  match oc with
  | .absent => .ok { acc with hung := acc.hung ++ [(job, hung_templ_format job)] }
  | .malformed => .error .yamlError
  | .doc s =>
      match s.success with
      | none => .error .keyError
      | some true =>
          match s.duration with
          | none => .error .typeError
          | some d =>
              .ok { acc with passed :=
                acc.passed ++ [(job, pass_templ_format job (pyStr s.description) d)] }
      | some false =>
          let log_line := log_line_of archive_server archive_dir job
          let sentry_line := sentry_line_of s.sentry_events
          match s.failure_reason with
          | none => .error .attributeError
          | some r =>
              let reason := indent_reason fillFn r
              match s.duration with
              | none => .error .typeError
              | some d =>
                  .ok { acc with failed :=
                    acc.failed ++ [(job, fail_templ_format job (pyStr s.description) d
                      log_line sentry_line reason)] }

/-- The job loop of `build_email_body`, folding `classify_job` over the
enumerated jobs in `get_jobs` order. -/
def classify_jobs (fillFn : String → String) (archive_server : Option String)
    (archive_dir : String) (archive : Archive) :
    List String → Classified → Except PyError Classified
  | [], acc => .ok acc
  | j :: rest, acc =>
      match classify_job fillFn archive_server archive_dir acc j (outcome_of archive j) with
      | .error err => .error err
      | .ok acc2 => classify_jobs fillFn archive_server archive_dir archive rest acc2

/-- `build_email_body` (suite.py lines 500-550) up to the point where the
classification tables are complete: the subject and body are rendered from
these tables afterwards.  Raises exactly when the job loop raises. -/
def build_email_body (fillFn : String → String) (archive_server : Option String)
    (archive_dir : String) (archive : Archive) : Except PyError Classified :=
  classify_jobs fillFn archive_server archive_dir archive (get_jobs archive)
    { failed := [], hung := [], passed := [] }

/-! ## Spec-side descriptions used by the claim statements -/

/-- A combination list whose contents are all plain strings, embedded into
`Comb`. -/
def strComb (l : List (Option String × String)) : List Comb :=
  l.map (fun c => (c.1, Val.str c.2))

/-- The re-tagged per-child combination lists of the Convolve branch, at
the level of string contents. -/
def tagItems (files : List (String × Entry)) (LS : List (List (Option String × String))) :
    List (List (String × String)) :=
  List.zipWith (fun (p : String × Entry) l =>
    l.map (fun (c : Option String × String) => (combine_path p.1 c.1, c.2))) files LS

/-- The combination list the Convolve branch returns when every child
content is a plain string: one combination per tuple of the Cartesian
product of the re-tagged child lists (last-listed child varying fastest),
named by brace-wrapping the space-joined element names and carrying the
newline-joined element contents. -/
def convolve_expected (files : List (String × Entry))
    (LS : List (List (Option String × String))) : List Comb :=
  (listProduct (tagItems files LS)).map (fun a =>
    (some ("\x7b" ++ String.intercalate " " (a.map Prod.fst) ++ "\x7d"),
     Val.str (String.intercalate "\n" (a.map Prod.snd))))

/-- The combination list the List branch returns: each child's
combinations re-tagged with `combine_path(filename, fragment)`, children
in listing order. -/
def list_expected (files : List (String × Entry)) (LS : List (List Comb)) : List Comb :=
  (List.zipWith (fun (p : String × Entry) (l : List Comb) =>
    l.map (fun a => ((some (combine_path p.1 a.1) : Option String), a.2))) files LS).flatten

/-- The per-job hung entry, when the job is hung. -/
def hung_entry (archive : Archive) (j : String) : Option String :=
  match outcome_of archive j with
  | .absent => some (hung_templ_format j)
  | _ => none

/-- The per-job passed entry, when the job passed. -/
def passed_entry (archive : Archive) (j : String) : Option String :=
  match outcome_of archive j with
  | .doc s =>
      match s.success, s.duration with
      | some true, some d => some (pass_templ_format j (pyStr s.description) d)
      | _, _ => none
  | _ => none

/-- The per-job failed entry, when the job failed. -/
def failed_entry (fillFn : String → String) (archive_server : Option String)
    (archive_dir : String) (archive : Archive) (j : String) : Option String :=
  match outcome_of archive j with
  | .doc s =>
      match s.success, s.failure_reason, s.duration with
      | some false, some r, some d =>
          some (fail_templ_format j (pyStr s.description) d
            (log_line_of archive_server archive_dir j) (sentry_line_of s.sentry_events)
            (indent_reason fillFn r))
      | _, _, _ => none
  | _ => none

/-- One report section assembled from a per-job entry function, jobs in
enumeration order. -/
def sectionOf (f : String → Option String) (jobs : List String) : List (String × String) :=
  jobs.filterMap (fun j => (f j).map (fun s => (j, s)))

/-- A parsed outcome the classifier can process without raising: not
malformed, and a parsed document carries a `success` value, a `duration`,
and (when failed) a `failure_reason`. -/
def outcome_ok : OutcomeFile → Prop
  | .absent => True
  | .malformed => False
  | .doc s => s.success.isSome = true ∧ s.duration.isSome = true ∧
      (s.success = some false → s.failure_reason.isSome = true)

instance : ∀ oc, Decidable (outcome_ok oc)
  | .absent => .isTrue trivial
  | .malformed => .isFalse id
  | .doc _ => inferInstanceAs (Decidable (_ ∧ _))

mutual
/-- Size measure for `Entry`, used for the nested induction principle. -/
def esize : Entry → Nat
  | .file _ => 1
  | .other => 1
  | .dir children => 1 + lsize children

/-- Size measure for child lists. -/
def lsize : List (String × Entry) → Nat
  | [] => 1
  | (_, e) :: rest => 1 + esize e + lsize rest
end

/-! ## Concrete instances used by the claim checks -/

/-- A Convolve directory whose two real children yield two and one
string-content combinations. -/
def c1tree : List (String × Entry) :=
  [("%", .other),
   ("a", .dir [("x.yaml", .file "X"), ("y.yaml", .file "Y")]),
   ("b", .dir [("u.yaml", .file "U")])]

/-- The per-child combination lists of `c1tree` at string-content level. -/
def c1LS : List (List (Option String × String)) :=
  [[(some "x.yaml", "X"), (some "y.yaml", "Y")], [(some "u.yaml", "U")]]

/-- A Convolve directory one of whose children is a Concat directory, so
that the child contributes a list-valued content. -/
def c1bad : List (String × Entry) :=
  [("%", .other), ("a", .dir [("+", .other), ("b.yaml", .file "B")])]

/-- A Concat directory whose children yield one and two combinations. -/
def c2tree : List (String × Entry) :=
  [("+", .other), ("a.yaml", .file "A"),
   ("b", .dir [("c.yaml", .file "C"), ("d.yaml", .file "D")])]

/-- A markerless (List mode) directory whose children yield one and two
combinations. -/
def c3tree : List (String × Entry) :=
  [("a.yaml", .file "A"), ("b", .dir [("c.yaml", .file "C"), ("d.yaml", .file "D")])]

/-- The per-child combination lists of `c3tree`. -/
def c3LS : List (List Comb) :=
  [[(none, Val.str "A")],
   [(some "c.yaml", Val.str "C"), (some "d.yaml", Val.str "D")]]

/-- An archive with one passed, one hung, and one failed job. -/
def c7archive : Archive :=
  [("2", .adir .absent),
   ("1", .adir (.doc ⟨some true, some "good", some 5, none, none⟩)),
   ("3", .adir (.doc ⟨some false, some "bad", some 7, some "boom", none⟩))]

/-- An archive whose failed job records no failure reason. -/
def c7bad : Archive :=
  [("1", .adir (.doc ⟨some false, some "bad", some 3, none, none⟩))]

/-- An archive with one unparseable outcome file. -/
def c8archive : Archive :=
  [("1", .adir .malformed)]

/-- An archive with job ids of different digit lengths. -/
def c9archive : Archive :=
  [("9", .adir .absent), ("10", .adir .absent)]

/-! ## Helper lemmas -/

theorem exMap_ok_of_forall {α β : Type} {g : α → Except PyError β} {h : α → β} :
    ∀ {L : List α}, (∀ a ∈ L, g a = .ok (h a)) → exMap g L = .ok (L.map h) := by
  intro L
  induction L with
  | nil => intro _; rfl
  | cons a rest ih =>
      intro hall
      have ha := hall a (List.mem_cons_self a rest)
      have hr := ih (fun x hx => hall x (List.mem_cons_of_mem a hx))
      simp [exMap, ha, hr]

theorem exMap_map {α β γ : Type} (g : β → Except PyError γ) (f : α → β) (L : List α) :
    exMap g (L.map f) = exMap (fun a => g (f a)) L := by
  induction L with
  | nil => rfl
  | cons a rest ih =>
      cases hga : g (f a) <;> simp [exMap, hga, ih]

theorem exMap_asStr_strs (xs : List String) : exMap asStr (xs.map Val.str) = .ok xs := by
  rw [exMap_map]
  have h := exMap_ok_of_forall (g := fun s => asStr (Val.str s)) (h := id) (L := xs)
    (fun a _ => rfl)
  simpa using h

theorem pyJoin_strs (sep : String) (xs : List String) :
    pyJoin sep (xs.map Val.str) = .ok (String.intercalate sep xs) := by
  simp [pyJoin, exMap_asStr_strs]

theorem listProduct_map {α β : Type} (f : α → β) :
    ∀ ls : List (List α),
      listProduct (ls.map (List.map f)) = (listProduct ls).map (List.map f)
  | [] => rfl
  | l :: rest => by
      simp only [List.map_cons, listProduct, listProduct_map f rest, List.map_flatten,
        List.map_map]
      congr 1
      refine List.map_congr_left (fun x _ => ?_)
      simp [List.map_map, Function.comp]

theorem listProduct_length {α : Type} :
    ∀ ls : List (List α), (listProduct ls).length = (ls.map List.length).prod
  | [] => rfl
  | l :: rest => by
      simp only [listProduct, List.length_flatten, List.map_map, List.map_cons,
        List.prod_cons]
      have h1 : List.map (List.length ∘ fun x => List.map (fun t => x :: t) (listProduct rest)) l
          = List.map (fun _ => (rest.map List.length).prod) l := by
        refine List.map_congr_left (fun x _ => ?_)
        simp [Function.comp, listProduct_length rest]
      rw [h1, List.map_const']
      simp [smul_eq_mul]

theorem mem_pyInsert {α : Type} {key : α → String} {x y : α} :
    ∀ {l : List α}, y ∈ pyInsert key x l ↔ y = x ∨ y ∈ l
  | [] => by simp [pyInsert]
  | z :: zs => by
      by_cases h : strLe (key x) (key z) = true
      · simp [pyInsert, h]
      · simp only [pyInsert, if_neg h, List.mem_cons, mem_pyInsert (l := zs)]
        tauto

theorem mem_pySorted {α : Type} {key : α → String} {y : α} :
    ∀ {l : List α}, y ∈ pySorted key l ↔ y ∈ l
  | [] => Iff.rfl
  | x :: xs => by
      simp [pySorted, mem_pyInsert, mem_pySorted (l := xs)]

theorem mem_map_fst_pySorted {α β : Type} {key : α → String} {f : α → β} {b : β}
    {l : List α} : b ∈ (pySorted key l).map f ↔ b ∈ l.map f := by
  simp only [List.mem_map]
  constructor <;> rintro ⟨a, ha, rfl⟩
  · exact ⟨a, mem_pySorted.mp ha, rfl⟩
  · exact ⟨a, mem_pySorted.mpr ha, rfl⟩

theorem sortKids_eq_of_norm : ∀ {l : List (String × Entry)},
    (∀ p ∈ l, sortTree p.2 = p.2) → sortKids l = l
  | [] => fun _ => rfl
  | (fn, e) :: rest => fun h => by
      have h1 := h (fn, e) (List.mem_cons_self _ _)
      have h2 := sortKids_eq_of_norm (fun p hp => h p (List.mem_cons_of_mem _ hp))
      simp only [sortKids]
      rw [h2]
      simpa using h1

theorem mem_sortKids {fn : String} {e : Entry} :
    ∀ {l : List (String × Entry)}, (fn, e) ∈ l → (fn, sortTree e) ∈ sortKids l
  | [], h => absurd h (List.not_mem_nil _)
  | (g, e2) :: rest, h => by
      rcases List.mem_cons.mp h with h | h
      · obtain ⟨rfl, rfl⟩ := Prod.mk.injEq .. ▸ (Prod.ext_iff.mp h)
        exact List.mem_cons_self _ _
      · exact List.mem_cons_of_mem _ (mem_sortKids h)

theorem bmKids_skip_eraseP (m : String) :
    ∀ l : List (String × Entry),
      bmKids (some m) l = bmKids none (l.eraseP (fun p => p.1 == m))
  | [] => rfl
  | (fn, e) :: rest => by
      by_cases h : m = fn
      · subst h
        rw [List.eraseP_cons_of_pos (by simp)]
        simp [bmKids]
      · have hL : ((some m : Option String) == some fn) = false := by
          simp [h]
        have hR : ((none : Option String) == some fn) = false := rfl
        rw [List.eraseP_cons_of_neg (by simp [Ne.symm h])]
        simp only [bmKids, hL, hR, Bool.false_eq_true, if_false]
        cases hb : bm fn e with
        | error err => rfl
        | ok r =>
            cases r with
            | none => rfl
            | some combs => rw [bmKids_skip_eraseP m rest]

theorem bmKids_none_of_forall₂ :
    ∀ {fl : List (String × Entry)} {RS : List (List Comb)},
      List.Forall₂ (fun p l => bm p.1 p.2 = .ok (some l)) fl RS →
      bmKids none fl = .ok (List.zipWith (fun p l => (p.1, l)) fl RS) := by
  intro fl RS h
  induction h with
  | nil => rfl
  | cons hpl _ ih =>
      simp only [bmKids, List.zipWith]
      rw [hpl, ih]
      rfl

theorem forall₂_bm_of_norm {γ : Type} {F : γ → Option (List Comb)} :
    ∀ {fl : List (String × Entry)} {LS : List γ},
      (∀ p ∈ fl, sortTree p.2 = p.2) →
      List.Forall₂ (fun p l => build_matrix p.1 p.2 = .ok (F l)) fl LS →
      List.Forall₂ (fun p l => bm p.1 p.2 = .ok (F l)) fl LS := by
  intro fl LS hn h
  induction h with
  | nil => exact .nil
  | cons hpl hrest ih =>
      refine .cons ?_ (ih (fun p hp => hn p (List.mem_cons_of_mem _ hp)))
      have he := hn _ (List.mem_cons_self _ _)
      unfold build_matrix at hpl
      rwa [he] at hpl

theorem tupleComb_strs (a : List (String × String)) :
    tupleComb (a.map (fun c => (c.1, Val.str c.2))) =
      .ok (some ("\x7b" ++ String.intercalate " " (a.map Prod.fst) ++ "\x7d"),
        Val.str (String.intercalate "\n" (a.map Prod.snd))) := by
  have h1 : (a.map (fun c => (c.1, Val.str c.2))).map Prod.snd
      = (a.map Prod.snd).map Val.str := by
    simp [List.map_map, Function.comp]
  have h2 : (a.map (fun c => (c.1, Val.str c.2))).map Prod.fst = a.map Prod.fst := by
    simp [List.map_map, Function.comp]
  unfold tupleComb
  rw [h1, pyJoin_strs, h2]

theorem convolve_combine_strs (fl : List (String × Entry))
    (LS : List (List (Option String × String))) :
    convolve_combine (List.zipWith (fun p l => (p.1, strComb l)) fl LS) =
      .ok (some (convolve_expected fl LS)) := by
  unfold convolve_combine
  have hitems : (List.zipWith (fun p l => (p.1, strComb l)) fl LS).map
      (fun p => p.2.map (fun a => (combine_path p.1 a.1, a.2)))
      = (tagItems fl LS).map (List.map (fun c => (c.1, Val.str c.2))) := by
    unfold tagItems
    rw [List.map_zipWith, List.map_zipWith]
    congr 1
    funext p l
    simp [strComb, List.map_map, Function.comp]
  rw [hitems, listProduct_map, exMap_map]
  rw [exMap_ok_of_forall (h := fun a =>
    ((some ("\x7b" ++ String.intercalate " " (a.map Prod.fst) ++ "\x7d") : Option String),
      Val.str (String.intercalate "\n" (a.map Prod.snd))))
    (fun a _ => tupleComb_strs a)]
  unfold convolve_expected
  rfl

theorem list_combine_zip (fl : List (String × Entry)) (LS : List (List Comb)) :
    list_combine (List.zipWith (fun p l => (p.1, l)) fl LS) =
      .ok (some (list_expected fl LS)) := by
  unfold list_combine list_expected
  rw [List.map_zipWith]

theorem tagItems_map_length :
    ∀ (fl : List (String × Entry)) (LS : List (List (Option String × String))),
      fl.length = LS.length →
      (tagItems fl LS).map List.length = LS.map List.length
  | [], [], _ => rfl
  | (fn, e) :: fr, l :: lr, h => by
      simp only [tagItems, List.zipWith, List.map_cons, List.length_map]
      have := tagItems_map_length fr lr (by simpa using h)
      simp only [tagItems] at this
      rw [this]

theorem zip_expected_map_length :
    ∀ (fl : List (String × Entry)) (LS : List (List Comb)),
      fl.length = LS.length →
      (List.zipWith (fun (p : String × Entry) (l : List Comb) =>
        l.map (fun a => ((some (combine_path p.1 a.1) : Option String), a.2))) fl LS).map
          List.length = LS.map List.length
  | [], [], _ => rfl
  | (fn, e) :: fr, l :: lr, h => by
      simp only [List.zipWith, List.map_cons, List.length_map]
      rw [zip_expected_map_length fr lr (by simpa using h)]

/-! ## Claim C1: Convolve mode -/

/-- Claim C1 (amended): for a directory in Convolve mode (a `%` entry and
no `+` entry) whose remaining children, compiled in lexicographic order,
yield combination lists with all-string contents, `build_matrix` returns
exactly the Cartesian product of the re-tagged child lists (one
combination per tuple, the last-listed child varying fastest), with the
brace-wrapped space-joined names and the newline-joined contents, and the
number of combinations is the product of the child counts.  The all-string
proviso is forced by the counterexample `c1_convolve_counterexample`: a
Concat child contributes a list-valued content and the Convolve joins then
raise `TypeError` instead of returning the product. -/
theorem c1_convolve_product (name : String) (children : List (String × Entry))
    (LS : List (List (Option String × String)))
    (hnorm : ∀ p ∈ children, sortTree p.2 = p.2)
    (hplus : "+" ∉ children.map Prod.fst)
    (hpct : "%" ∈ children.map Prod.fst)
    (H : List.Forall₂
      (fun p l => build_matrix p.1 p.2 = .ok (some (strComb l)))
      ((pySorted Prod.fst children).eraseP (fun p => p.1 == "%")) LS) :
    build_matrix name (.dir children) =
      .ok (some (convolve_expected
        ((pySorted Prod.fst children).eraseP (fun p => p.1 == "%")) LS)) ∧
    (convolve_expected ((pySorted Prod.fst children).eraseP (fun p => p.1 == "%")) LS).length
      = (LS.map List.length).prod := by
  have hnorm2 : ∀ p ∈ (pySorted Prod.fst children).eraseP (fun p => p.1 == "%"),
      sortTree p.2 = p.2 := fun p hp =>
    hnorm p (mem_pySorted.mp (List.mem_of_mem_eraseP hp))
  have Hbm := forall₂_bm_of_norm (F := fun l => some (strComb l)) hnorm2 H
  have Hbm2 : List.Forall₂ (fun p l => bm p.1 p.2 = .ok (some l))
      ((pySorted Prod.fst children).eraseP (fun p => p.1 == "%")) (LS.map strComb) :=
    List.forall₂_map_right_iff.mpr Hbm
  have hkids := bmKids_none_of_forall₂ Hbm2
  have hzip : List.zipWith (fun (p : String × Entry) (l : List Comb) => (p.1, l))
      ((pySorted Prod.fst children).eraseP (fun p => p.1 == "%")) (LS.map strComb)
      = List.zipWith (fun p l => (p.1, strComb l))
        ((pySorted Prod.fst children).eraseP (fun p => p.1 == "%")) LS := by
    rw [List.zipWith_map_right]
  have hplusS : ¬ (((pySorted Prod.fst children).map Prod.fst).contains "+" = true) := by
    intro hc
    exact hplus (mem_map_fst_pySorted.mp (List.elem_iff.mp hc))
  have hpctS : ((pySorted Prod.fst children).map Prod.fst).contains "%" = true :=
    List.elem_iff.mpr (mem_map_fst_pySorted.mpr hpct)
  constructor
  · unfold build_matrix sortTree
    rw [sortKids_eq_of_norm hnorm]
    simp only [bm]
    rw [if_neg hplusS, if_pos hpctS, bmKids_skip_eraseP, hkids, hzip]
    exact convolve_combine_strs _ LS
  · unfold convolve_expected
    rw [List.length_map, listProduct_length,
      tagItems_map_length _ LS (List.Forall₂.length_eq H)]

/-- Witness for C1: the hypotheses hold of the concrete tree `c1tree` and
the theorem computes its 2 x 1 product. -/
theorem c1_convolve_product_witness :
    ((∀ p ∈ c1tree, sortTree p.2 = p.2) ∧ "+" ∉ c1tree.map Prod.fst ∧
      "%" ∈ c1tree.map Prod.fst ∧
      List.Forall₂ (fun p l => build_matrix p.1 p.2 = .ok (some (strComb l)))
        ((pySorted Prod.fst c1tree).eraseP (fun p => p.1 == "%")) c1LS) ∧
    build_matrix "d" (.dir c1tree) =
      .ok (some (convolve_expected
        ((pySorted Prod.fst c1tree).eraseP (fun p => p.1 == "%")) c1LS)) ∧
    (convolve_expected ((pySorted Prod.fst c1tree).eraseP (fun p => p.1 == "%")) c1LS).length
      = (c1LS.map List.length).prod := by
  have h1 : ∀ p ∈ c1tree, sortTree p.2 = p.2 := by
    intro p hp
    simp only [c1tree, List.mem_cons, List.not_mem_nil, or_false] at hp
    rcases hp with rfl | rfl | rfl <;> rfl
  have h2 : "+" ∉ c1tree.map Prod.fst := by decide
  have h3 : "%" ∈ c1tree.map Prod.fst := by decide
  have h4 : List.Forall₂ (fun p l => build_matrix p.1 p.2 = .ok (some (strComb l)))
      ((pySorted Prod.fst c1tree).eraseP (fun p => p.1 == "%")) c1LS :=
    .cons rfl (.cons rfl .nil)
  exact ⟨⟨h1, h2, h3, h4⟩, c1_convolve_product "d" c1tree c1LS h1 h2 h3 h4⟩

/-- Counterexample to C1 as stated: in `c1bad` the single real child is a
Concat directory that does yield a combination list (of size one, so the
claim predicts one product combination), yet the Convolve directory raises
`TypeError` instead of returning any combination list, because the child
content is the one-element list the Concat branch builds. -/
theorem c1_convolve_counterexample :
    build_matrix "a" (.dir [("+", .other), ("b.yaml", .file "B")]) =
      .ok (some [(some "+", Val.lst [Val.str "B"])]) ∧
    build_matrix "d" (.dir c1bad) = .error .typeError ∧
    ∀ out : List Comb, build_matrix "d" (.dir c1bad) ≠ .ok (some out) := by
  refine ⟨rfl, rfl, fun out h => ?_⟩
  rw [show build_matrix "d" (.dir c1bad) = .error .typeError from rfl] at h
  exact Except.noConfusion h

/-! ## Claim C2: Concat mode -/

/-- Claim C2 evaluated on the code: the Concat directory `c2tree` (one
`.yaml` child and one two-combination subdirectory) produces exactly one
combination named `+`, but its content is the one-element Python list
`['A\nC\nD']` (the source wraps the newline-join in brackets on line 231),
not the plain string `'A\nC\nD'` the claim and the rest of the code's
content handling call for. -/
theorem c2_concat_eval :
    build_matrix "d" (.dir c2tree) =
      .ok (some [(some "+", Val.lst [Val.str "A\nC\nD"])]) ∧
    ∀ l : List Comb, build_matrix "d" (.dir c2tree) = .ok (some l) →
      l = [(some "+", Val.lst [Val.str "A\nC\nD"])] := by
  refine ⟨rfl, fun l h => ?_⟩
  rw [show build_matrix "d" (.dir c2tree) =
    .ok (some [(some "+", Val.lst [Val.str "A\nC\nD"])]) from rfl] at h
  cases h
  rfl

/-! ## Claim C4: the missing `import stat` -/

/-- Claim C4: `build_matrix` refers to the global name `stat`, which is
bound neither by the module imports nor by the builtins, so every
invocation of the function as the module executes it raises `NameError`
before any combination list can be produced. -/
theorem c4_missing_stat_import :
    "stat" ∈ build_matrix_referenced_globals ∧
    "stat" ∉ suite_module_globals ∧
    "stat" ∉ python2_builtins ∧
    name_resolves "stat" = false ∧
    ∀ (name : String) (e : Entry), build_matrix_call name e = .error .nameError := by
  refine ⟨by decide, by decide, by decide, by decide, fun name e => ?_⟩
  unfold build_matrix_call
  rw [show name_resolves "stat" = false from by decide]
  simp

/-- Witness for C4 at a concrete call. -/
theorem c4_witness :
    build_matrix_call "x.yaml" (.file "A") = .error .nameError :=
  c4_missing_stat_import.2.2.2.2 "x.yaml" (.file "A")

/-! ## Claim C5: the selection filter -/

/-- Claim C5: the combination is skipped exactly when one of the three
rules fires — (1) a truthy `exclude_arch` equal to the resolved
architecture, (2) a truthy `exclude_os_type` equal to the document's own
`os_type`, (3) machine type other than `vps` with a truthy `os_type`
other than `ubuntu` — and when the architecture is unresolved (`none`)
rule (1) never fires.  A key "set" to the empty string is falsy in the
source's `if exclude_arch:` tests and is treated as unset, which is the
reading of "set" used here. -/
theorem c5_selection_filter (y : JobConfig) (arch machine_type : Option String) :
    (should_skip y arch machine_type = true ↔
      (truthy y.exclude_arch = true ∧ y.exclude_arch = arch) ∨
      (truthy y.exclude_os_type = true ∧ y.exclude_os_type = y.os_type) ∨
      (machine_type ≠ some "vps" ∧ truthy y.os_type = true ∧ y.os_type ≠ some "ubuntu")) ∧
    (arch = none → ¬ (truthy y.exclude_arch = true ∧ y.exclude_arch = arch)) := by
  constructor
  · unfold should_skip
    split_ifs with h1 h2 h3
    · simp only [true_iff]
      left
      simpa [Bool.and_eq_true, beq_iff_eq] using h1
    · simp only [true_iff]
      right; left
      simpa [Bool.and_eq_true, beq_iff_eq] using h2
    · simp only [true_iff]
      right; right
      simp only [Bool.and_eq_true, Bool.not_eq_true', beq_eq_false_iff_ne, ne_eq] at h3
      tauto
    · simp only [Bool.false_eq_true, false_iff]
      rintro (⟨ht, he⟩ | ⟨ht, he⟩ | ⟨hmt, hos, hub⟩)
      · exact h1 (by rw [Bool.and_eq_true, beq_iff_eq]; exact ⟨ht, he⟩)
      · exact h2 (by rw [Bool.and_eq_true, beq_iff_eq]; exact ⟨ht, he⟩)
      · refine h3 ?_
        rw [Bool.and_eq_true, Bool.and_eq_true, Bool.not_eq_true', Bool.not_eq_true',
          beq_eq_false_iff_ne, beq_eq_false_iff_ne]
        exact ⟨hmt, hos, hub⟩
  · rintro rfl ⟨ht, he⟩
    rw [he] at ht
    simp [truthy] at ht

/-- Witness for C5: a `centos` combination on a non-vps machine type is
skipped by rule (3). -/
theorem c5_witness :
    should_skip ⟨some "centos", none, none⟩ none (some "plana") = true :=
  (c5_selection_filter ⟨some "centos", none, none⟩ none (some "plana")).1.mpr
    (Or.inr (Or.inr ⟨by decide, by decide, by decide⟩))

/-! ## Claim C6: dry-run still makes the sentinel call -/

/-- Claim C6 evaluated on the code: with `--dry-run` the per-combination
dispatches are suppressed, but the final `--last-in-suite` sentinel
`subprocess.check_call` (suite.py lines 191-199) is outside the dry-run
guard and still executes, so the list of external scheduler calls is not
empty as the claim (and the `--dry-run` help text) requires. -/
theorem c6_dry_run_eval :
    main_dispatch_calls true ["collection/job1"] = [SchedCall.schedule_last_in_suite] ∧
    main_dispatch_calls true ["collection/job1"] ≠ [] ∧
    main_dispatch_calls false ["collection/job1"] =
      [SchedCall.schedule_job "collection/job1", SchedCall.schedule_last_in_suite] := by
  refine ⟨rfl, ?_, rfl⟩
  intro h
  exact List.noConfusion h

/-! ## Claim C3: List mode -/

/-- Claim C3: for a directory with neither marker, whose children (in
lexicographic listing order) each yield a combination list, `build_matrix`
returns the concatenation of the per-child lists, each combination
re-tagged with `combine_path(child-filename, fragment)` (filename first),
and the total count is the sum of the child counts. -/
theorem c3_list_union (name : String) (children : List (String × Entry))
    (LS : List (List Comb))
    (hnorm : ∀ p ∈ children, sortTree p.2 = p.2)
    (hplus : "+" ∉ children.map Prod.fst)
    (hpct : "%" ∉ children.map Prod.fst)
    (H : List.Forall₂ (fun p l => build_matrix p.1 p.2 = .ok (some l))
      (pySorted Prod.fst children) LS) :
    build_matrix name (.dir children) =
      .ok (some (list_expected (pySorted Prod.fst children) LS)) ∧
    (list_expected (pySorted Prod.fst children) LS).length = (LS.map List.length).sum := by
  have hnorm2 : ∀ p ∈ pySorted Prod.fst children, sortTree p.2 = p.2 := fun p hp =>
    hnorm p (mem_pySorted.mp hp)
  have Hbm := forall₂_bm_of_norm (F := Option.some) hnorm2 H
  have hkids := bmKids_none_of_forall₂ Hbm
  have hplusS : ¬ (((pySorted Prod.fst children).map Prod.fst).contains "+" = true) := by
    intro hc
    exact hplus (mem_map_fst_pySorted.mp (List.elem_iff.mp hc))
  have hpctS : ¬ (((pySorted Prod.fst children).map Prod.fst).contains "%" = true) := by
    intro hc
    exact hpct (mem_map_fst_pySorted.mp (List.elem_iff.mp hc))
  constructor
  · unfold build_matrix sortTree
    rw [sortKids_eq_of_norm hnorm]
    simp only [bm]
    rw [if_neg hplusS, if_neg hpctS, hkids]
    exact list_combine_zip _ LS
  · unfold list_expected
    rw [List.length_flatten, zip_expected_map_length _ LS (List.Forall₂.length_eq H)]

/-- Witness for C3: the hypotheses hold of the concrete markerless tree
`c3tree`, and the result is the 1 + 2 = 3 re-tagged combinations. -/
theorem c3_list_union_witness :
    ((∀ p ∈ c3tree, sortTree p.2 = p.2) ∧ "+" ∉ c3tree.map Prod.fst ∧
      "%" ∉ c3tree.map Prod.fst ∧
      List.Forall₂ (fun p l => build_matrix p.1 p.2 = .ok (some l))
        (pySorted Prod.fst c3tree) c3LS) ∧
    build_matrix "d" (.dir c3tree) =
      .ok (some (list_expected (pySorted Prod.fst c3tree) c3LS)) ∧
    (list_expected (pySorted Prod.fst c3tree) c3LS).length = (c3LS.map List.length).sum ∧
    list_expected (pySorted Prod.fst c3tree) c3LS =
      [(some "a.yaml", Val.str "A"), (some "b/c.yaml", Val.str "C"),
       (some "b/d.yaml", Val.str "D")] := by
  have h1 : ∀ p ∈ c3tree, sortTree p.2 = p.2 := by
    intro p hp
    simp only [c3tree, List.mem_cons, List.not_mem_nil, or_false] at hp
    rcases hp with rfl | rfl <;> rfl
  have h2 : "+" ∉ c3tree.map Prod.fst := by decide
  have h3 : "%" ∉ c3tree.map Prod.fst := by decide
  have h4 : List.Forall₂ (fun p l => build_matrix p.1 p.2 = .ok (some l))
      (pySorted Prod.fst c3tree) c3LS :=
    .cons rfl (.cons rfl .nil)
  have hmain := c3_list_union "d" c3tree c3LS h1 h2 h3 h4
  exact ⟨⟨h1, h2, h3, h4⟩, hmain.1, hmain.2, rfl⟩

/-! ## Error classification: every exception `build_matrix` raises is a
`TypeError` -/

theorem esize_lt_of_mem : ∀ {l : List (String × Entry)} {fn : String} {e : Entry},
    (fn, e) ∈ l → esize e < lsize l
  | [], _, _, h => absurd h (List.not_mem_nil _)
  | (g, e2) :: rest, fn, e, h => by
      rcases List.mem_cons.mp h with h | h
      · obtain ⟨rfl, rfl⟩ := Prod.mk.injEq .. ▸ (Prod.ext_iff.mp h)
        simp only [lsize]
        omega
      · have := esize_lt_of_mem h
        simp only [lsize]
        omega

/-- Induction over `Entry` through the nested child lists. -/
theorem entry_induction {motive : Entry → Prop}
    (hfile : ∀ c, motive (.file c)) (hother : motive .other)
    (hdir : ∀ l, (∀ p ∈ l, motive p.2) → motive (.dir l)) : ∀ e, motive e
  | .file c => hfile c
  | .other => hother
  | .dir l => hdir l (fun p hp =>
      have : esize p.2 < esize (.dir l) := by
        have h := esize_lt_of_mem (l := l) (e := p.2) (show (p.1, p.2) ∈ l by simpa using hp)
        simp only [esize]
        omega
      entry_induction hfile hother hdir p.2)
termination_by e => esize e

theorem asStr_error {v : Val} {err : PyError} : asStr v = .error err → err = .typeError := by
  cases v with
  | str s => intro h; exact Except.noConfusion h
  | lst xs => intro h; cases h; rfl

theorem exMap_error_of {γ β : Type} {g : γ → Except PyError β}
    (hg : ∀ a err, g a = .error err → err = .typeError) :
    ∀ {L : List γ} {err : PyError}, exMap g L = .error err → err = .typeError := by
  intro L
  induction L with
  | nil => intro err h; exact Except.noConfusion h
  | cons a rest ih =>
      intro err h
      simp only [exMap] at h
      cases hga : g a with
      | error e2 =>
          rw [hga] at h
          cases h
          exact hg a _ hga
      | ok b =>
          rw [hga] at h
          cases hr : exMap g rest with
          | error e2 =>
              rw [hr] at h
              cases h
              exact ih hr
          | ok bs =>
              rw [hr] at h
              exact Except.noConfusion h

theorem pyJoin_error {sep : String} {xs : List Val} {err : PyError} :
    pyJoin sep xs = .error err → err = .typeError := by
  intro h
  simp only [pyJoin] at h
  cases hx : exMap asStr xs with
  | error e2 =>
      rw [hx] at h
      cases h
      exact exMap_error_of (fun a e he => asStr_error he) hx
  | ok ss =>
      rw [hx] at h
      exact Except.noConfusion h

theorem tupleComb_error {a : List (String × Val)} {err : PyError} :
    tupleComb a = .error err → err = .typeError := by
  intro h
  simp only [tupleComb] at h
  cases hx : pyJoin "\n" (a.map Prod.snd) with
  | error e2 =>
      rw [hx] at h
      cases h
      exact pyJoin_error hx
  | ok v =>
      rw [hx] at h
      exact Except.noConfusion h

theorem concat_combine_error {rs : List (String × List Comb)} {err : PyError} :
    concat_combine rs = .error err → err = .typeError := by
  intro h
  simp only [concat_combine] at h
  cases hx : pyJoin "\n" (((rs.map Prod.snd).flatten).map Prod.snd) with
  | error e2 =>
      rw [hx] at h
      cases h
      exact pyJoin_error hx
  | ok v =>
      rw [hx] at h
      exact Except.noConfusion h

theorem convolve_combine_error {rs : List (String × List Comb)} {err : PyError} :
    convolve_combine rs = .error err → err = .typeError := by
  intro h
  simp only [convolve_combine] at h
  cases hx : exMap tupleComb
      (listProduct (rs.map (fun p => p.2.map (fun a => (combine_path p.1 a.1, a.2))))) with
  | error e2 =>
      rw [hx] at h
      cases h
      exact exMap_error_of (fun a e he => tupleComb_error he) hx
  | ok out =>
      rw [hx] at h
      exact Except.noConfusion h

theorem bmKids_error_of {l : List (String × Entry)}
    (hl : ∀ p ∈ l, ∀ err, bm p.1 p.2 = .error err → err = .typeError) :
    ∀ (skip : Option String) (err : PyError),
      bmKids skip l = .error err → err = .typeError := by
  induction l with
  | nil => intro skip err h; exact Except.noConfusion h
  | cons p rest ih =>
      obtain ⟨fn, e⟩ := p
      intro skip err h
      simp only [bmKids] at h
      by_cases hg : (skip == some fn) = true
      · rw [if_pos hg] at h
        exact ih (fun q hq => hl q (List.mem_cons_of_mem _ hq)) none err h
      · rw [if_neg hg] at h
        cases hb : bm fn e with
        | error e2 =>
            rw [hb] at h
            cases h
            exact hl (fn, e) (List.mem_cons_self _ _) _ hb
        | ok r =>
            rw [hb] at h
            cases r with
            | none => cases h; rfl
            | some combs =>
                cases hr : bmKids skip rest with
                | error e2 =>
                    rw [hr] at h
                    cases h
                    exact ih (fun q hq => hl q (List.mem_cons_of_mem _ hq)) skip _ hr
                | ok others =>
                    rw [hr] at h
                    exact Except.noConfusion h

theorem bm_error_typeError :
    ∀ (e : Entry) (name : String) (err : PyError),
      bm name e = .error err → err = .typeError := by
  intro e
  induction e using entry_induction with
  | hfile c =>
      intro name err h
      simp only [bm] at h
      by_cases hy : strEndsWith name ".yaml" = true
      · rw [if_pos hy] at h; exact Except.noConfusion h
      · rw [if_neg hy] at h; exact Except.noConfusion h
  | hother => intro name err h; exact Except.noConfusion h
  | hdir l ih =>
      intro name err h
      have hl : ∀ p ∈ l, ∀ err2, bm p.1 p.2 = .error err2 → err2 = .typeError :=
        fun p hp => ih p hp p.1
      simp only [bm] at h
      by_cases h1 : ((l.map Prod.fst).contains "+") = true
      · rw [if_pos h1] at h
        cases hk : bmKids (some "+") l with
        | error e2 =>
            rw [hk] at h
            cases h
            exact bmKids_error_of hl _ _ hk
        | ok rs =>
            rw [hk] at h
            exact concat_combine_error h
      · rw [if_neg h1] at h
        by_cases h2 : ((l.map Prod.fst).contains "%") = true
        · rw [if_pos h2] at h
          cases hk : bmKids (some "%") l with
          | error e2 =>
              rw [hk] at h
              cases h
              exact bmKids_error_of hl _ _ hk
          | ok rs =>
              rw [hk] at h
              exact convolve_combine_error h
        · rw [if_neg h2] at h
          cases hk : bmKids none l with
          | error e2 =>
              rw [hk] at h
              cases h
              exact bmKids_error_of hl _ _ hk
          | ok rs =>
              rw [hk] at h
              exact Except.noConfusion h

theorem bmKids_fails {fn : String} {e : Entry} :
    ∀ (skip : Option String) (l : List (String × Entry)),
      (fn, e) ∈ l → skip ≠ some fn → bm fn e = .ok none →
      ∃ err, bmKids skip l = .error err := by
  intro skip l
  induction l generalizing skip with
  | nil => intro h; exact absurd h (List.not_mem_nil _)
  | cons p rest ih =>
      obtain ⟨g, e2⟩ := p
      intro hmem hskip hnone
      simp only [bmKids]
      by_cases hg : (skip == some g) = true
      · rw [if_pos hg]
        have hsg : skip = some g := by simpa [beq_iff_eq] using hg
        have hmem2 : (fn, e) ∈ rest := by
          rcases List.mem_cons.mp hmem with h | h
          · obtain ⟨rfl, rfl⟩ := Prod.mk.injEq .. ▸ (Prod.ext_iff.mp h)
            exact absurd hsg hskip
          · exact h
        exact ih none hmem2 (by simp) hnone
      · rw [if_neg hg]
        cases hb : bm g e2 with
        | error err => exact ⟨err, rfl⟩
        | ok r =>
            cases r with
            | none => exact ⟨.typeError, rfl⟩
            | some combs =>
                have hmem2 : (fn, e) ∈ rest := by
                  rcases List.mem_cons.mp hmem with h | h
                  · obtain ⟨rfl, rfl⟩ := Prod.mk.injEq .. ▸ (Prod.ext_iff.mp h)
                    rw [hnone] at hb
                    exact absurd hb (by intro hc; cases hc)
                  · exact h
                obtain ⟨err, herr⟩ := ih skip hmem2 hskip hnone
                rw [herr]
                exact ⟨err, rfl⟩

/-! ## Claim C10: non-yaml files and exotic nodes -/

/-- Claim C10 (amended): a regular file not ending in `.yaml`, and any
node that is neither a regular file nor a directory, makes `build_matrix`
fall through every branch and return Python `None` instead of a list; and
a directory containing such an entry as a child fails with `TypeError`
instead of skipping the child — except when the offending child carries a
marker name (`+` or `%`): the counterexample `c10_counterexample` shows a
marker-named entry is consumed as the directory's mode marker and is never
compiled, so that directory compiles without error. -/
theorem c10_none_fallthrough :
    (∀ name content : String, strEndsWith name ".yaml" = false →
      build_matrix name (.file content) = .ok none) ∧
    (∀ name : String, build_matrix name (.other : Entry) = .ok none) ∧
    (∀ (name fn : String) (e : Entry) (children : List (String × Entry)),
      (fn, e) ∈ children → fn ≠ "+" → fn ≠ "%" →
      build_matrix fn e = .ok none →
      build_matrix name (.dir children) = .error .typeError) := by
  refine ⟨?_, ?_, ?_⟩
  · intro name content hy
    unfold build_matrix sortTree bm
    rw [hy]
    rfl
  · intro name
    rfl
  · intro name fn e children hmem hp hm hnone
    have hmem2 : (fn, sortTree e) ∈ pySorted Prod.fst (sortKids children) :=
      mem_pySorted.mpr (mem_sortKids hmem)
    have hbm : bm fn (sortTree e) = .ok none := hnone
    unfold build_matrix sortTree
    simp only [bm]
    have herrty : ∀ skip err,
        bmKids skip (pySorted Prod.fst (sortKids children)) = .error err →
        err = PyError.typeError :=
      bmKids_error_of (fun p _ err2 => bm_error_typeError p.2 p.1 err2)
    by_cases h1 : (((pySorted Prod.fst (sortKids children)).map Prod.fst).contains "+") = true
    · rw [if_pos h1]
      obtain ⟨err, herr⟩ := bmKids_fails (some "+") _ hmem2
        (by intro hc; exact hp (by cases hc; rfl)) hbm
      rw [herr, herrty _ _ herr]
    · rw [if_neg h1]
      by_cases h2 : (((pySorted Prod.fst (sortKids children)).map Prod.fst).contains "%") = true
      · rw [if_pos h2]
        obtain ⟨err, herr⟩ := bmKids_fails (some "%") _ hmem2
          (by intro hc; exact hm (by cases hc; rfl)) hbm
        rw [herr, herrty _ _ herr]
      · rw [if_neg h2]
        obtain ⟨err, herr⟩ := bmKids_fails none _ hmem2 (by simp) hbm
        rw [herr, herrty _ _ herr]

/-- Witness for C10 at concrete inputs: a `README` file child makes its
directory raise `TypeError`. -/
theorem c10_none_fallthrough_witness :
    (strEndsWith "README" ".yaml" = false ∧
      build_matrix "README" (.file "doc") = .ok none) ∧
    build_matrix "s" (.other : Entry) = .ok none ∧
    ((("README", (.file "doc" : Entry)) ∈
        [("README", (.file "doc" : Entry)), ("a.yaml", (.file "A" : Entry))]) ∧
      build_matrix "d" (.dir [("README", .file "doc"), ("a.yaml", .file "A")]) =
        .error .typeError) := by
  have h1 : strEndsWith "README" ".yaml" = false := by decide
  have h2 := c10_none_fallthrough.1 "README" "doc" h1
  refine ⟨⟨h1, h2⟩, c10_none_fallthrough.2.1 "s", ⟨List.mem_cons_self _ _, ?_⟩⟩
  exact c10_none_fallthrough.2.2 "d" "README" (.file "doc")
    [("README", .file "doc"), ("a.yaml", .file "A")]
    (List.mem_cons_self _ _) (by decide) (by decide) h2

/-- Counterexample to C10 as stated: a directory whose only entry is a
non-file non-directory node named `+` does not fail with a type error —
the entry acts as the Concat marker, is removed from the listing, and the
directory compiles to the single empty-concat combination. -/
theorem c10_counterexample :
    build_matrix "d" (.dir [("+", .other)]) =
      .ok (some [(some "+", Val.lst [Val.str ""])]) ∧
    ∀ err : PyError, build_matrix "d" (.dir [("+", .other)]) ≠ .error err := by
  refine ⟨rfl, fun err h => ?_⟩
  rw [show build_matrix "d" (.dir [("+", .other)]) =
    .ok (some [(some "+", Val.lst [Val.str ""])]) from rfl] at h
  exact Except.noConfusion h

/-! ## Sortedness of `pySorted` -/

theorem charListLe_total : ∀ a b : List Char, charListLe a b = true ∨ charListLe b a = true := by
  intro a
  induction a with
  | nil => intro b; left; rfl
  | cons x xs ih =>
      intro b
      cases b with
      | nil => right; rfl
      | cons y ys =>
          simp only [charListLe]
          by_cases h1 : x.val < y.val
          · left; rw [if_pos h1]
          · by_cases h2 : y.val < x.val
            · right; rw [if_pos h2]
            · rw [if_neg h1, if_neg h2, if_neg h2, if_neg h1]
              exact ih ys

theorem strLe_total (a b : String) : strLe a b = true ∨ strLe b a = true :=
  charListLe_total a.data b.data

theorem head?_pyInsert {α : Type} (key : α → String) (x : α) :
    ∀ l : List α, (pyInsert key x l).head? = some x ∨ (pyInsert key x l).head? = l.head?
  | [] => Or.inl rfl
  | y :: ys => by
      simp only [pyInsert]
      by_cases h : strLe (key x) (key y) = true
      · rw [if_pos h]; exact Or.inl rfl
      · rw [if_neg h]; exact Or.inr rfl

theorem chain'_pyInsert {α : Type} {key : α → String} {x : α} :
    ∀ {l : List α}, List.Chain' (fun a b => strLe (key a) (key b) = true) l →
      List.Chain' (fun a b => strLe (key a) (key b) = true) (pyInsert key x l) := by
  intro l
  induction l with
  | nil => intro _; simp [pyInsert]
  | cons y ys ih =>
      intro h
      simp only [pyInsert]
      by_cases hxy : strLe (key x) (key y) = true
      · rw [if_pos hxy]
        exact List.chain'_cons.mpr ⟨hxy, h⟩
      · rw [if_neg hxy]
        have hyx : strLe (key y) (key x) = true := (strLe_total _ _).resolve_left hxy
        refine List.chain'_cons'.mpr ⟨?_, ih h.tail⟩
        intro b hb
        rcases head?_pyInsert key x ys with hh | hh
        · rw [hh] at hb
          cases hb
          exact hyx
        · rw [hh] at hb
          exact (List.chain'_cons'.mp h).1 b hb

theorem chain'_pySorted {α : Type} (key : α → String) :
    ∀ l : List α, List.Chain' (fun a b => strLe (key a) (key b) = true) (pySorted key l)
  | [] => List.chain'_nil
  | _ :: xs => chain'_pyInsert (chain'_pySorted key xs)

/-! ## Classifier lemmas -/

theorem classify_jobs_ok (fillFn : String → String) (base : Option String)
    (dir : String) (archive : Archive) :
    ∀ (jobs : List String) (acc : Classified),
      (∀ j ∈ jobs, outcome_ok (outcome_of archive j)) →
      classify_jobs fillFn base dir archive jobs acc =
        .ok { failed := acc.failed ++ sectionOf (failed_entry fillFn base dir archive) jobs,
              hung := acc.hung ++ sectionOf (hung_entry archive) jobs,
              passed := acc.passed ++ sectionOf (passed_entry archive) jobs } := by
  intro jobs
  induction jobs with
  | nil => intro acc _; simp [classify_jobs, sectionOf]
  | cons j rest ih =>
      intro acc h
      have hj := h j (List.mem_cons_self _ _)
      have hrest := fun x hx => h x (List.mem_cons_of_mem _ hx)
      simp only [classify_jobs]
      cases hoc : outcome_of archive j with
      | absent =>
          simp only [classify_job]
          rw [ih _ hrest]
          simp [sectionOf, List.filterMap_cons, hung_entry, passed_entry, failed_entry, hoc]
      | malformed =>
          rw [hoc] at hj
          exact absurd hj id
      | doc s =>
          rw [hoc] at hj
          obtain ⟨hs, hd, hf⟩ := hj
          cases hsv : s.success with
          | none => rw [hsv] at hs; simp at hs
          | some b =>
              cases hdv : s.duration with
              | none => rw [hdv] at hd; simp at hd
              | some d =>
                  cases b with
                  | true =>
                      simp only [classify_job, hsv, hdv]
                      rw [ih _ hrest]
                      simp [sectionOf, List.filterMap_cons, hung_entry, passed_entry,
                        failed_entry, hoc, hsv, hdv]
                  | false =>
                      have hfs : s.failure_reason.isSome = true := hf hsv
                      cases hfv : s.failure_reason with
                      | none => rw [hfv] at hfs; simp at hfs
                      | some r =>
                          simp only [classify_job, hsv, hdv, hfv]
                          rw [ih _ hrest]
                          simp [sectionOf, List.filterMap_cons, hung_entry, passed_entry,
                            failed_entry, hoc, hsv, hdv, hfv]

theorem build_email_body_ok (fillFn : String → String) (base : Option String)
    (dir : String) (archive : Archive)
    (H : ∀ j ∈ get_jobs archive, outcome_ok (outcome_of archive j)) :
    build_email_body fillFn base dir archive =
      .ok { failed := sectionOf (failed_entry fillFn base dir archive) (get_jobs archive),
            hung := sectionOf (hung_entry archive) (get_jobs archive),
            passed := sectionOf (passed_entry archive) (get_jobs archive) } := by
  unfold build_email_body
  rw [classify_jobs_ok fillFn base dir archive _ _ H]
  simp

theorem mem_fst_sectionOf {f : String → Option String} {jobs : List String} {j : String} :
    j ∈ (sectionOf f jobs).map Prod.fst ↔ j ∈ jobs ∧ (f j).isSome = true := by
  simp only [sectionOf, List.mem_map, List.mem_filterMap]
  constructor
  · rintro ⟨⟨j2, s⟩, ⟨a, ha, hfa⟩, rfl⟩
    cases hfa2 : f a with
    | none => rw [hfa2] at hfa; exact absurd hfa (by simp)
    | some s2 =>
        rw [hfa2] at hfa
        simp only [Option.map_some', Option.some_inj, Prod.mk.injEq] at hfa
        obtain ⟨⟨rfl, rfl⟩⟩ := hfa
        exact ⟨ha, by simp [hfa2]⟩
  · rintro ⟨hj, hs⟩
    obtain ⟨s, hfs⟩ := Option.isSome_iff_exists.mp hs
    exact ⟨(j, s), ⟨j, hj, by simp [hfs]⟩, rfl⟩

theorem sectionOf_fst_sublist (f : String → Option String) :
    ∀ jobs : List String, ((sectionOf f jobs).map Prod.fst).Sublist jobs
  | [] => List.Sublist.slnil
  | j :: rest => by
      simp only [sectionOf, List.filterMap_cons]
      cases hf : f j with
      | none =>
          exact List.Sublist.cons j (sectionOf_fst_sublist f rest)
      | some s =>
          simp only [Option.map_some', List.map_cons]
          exact List.Sublist.cons₂ j (sectionOf_fst_sublist f rest)

theorem hung_entry_isSome {archive : Archive} {j : String} :
    (hung_entry archive j).isSome = true ↔ outcome_of archive j = .absent := by
  cases hoc : outcome_of archive j <;> simp [hung_entry, hoc]

theorem passed_entry_isSome {archive : Archive} {j : String}
    (hok : outcome_ok (outcome_of archive j)) :
    (passed_entry archive j).isSome = true ↔
      ∃ s, outcome_of archive j = .doc s ∧ s.success = some true := by
  cases hoc : outcome_of archive j with
  | absent => simp [passed_entry, hoc]
  | malformed => rw [hoc] at hok; exact absurd hok id
  | doc s =>
      rw [hoc] at hok
      obtain ⟨hs, hd, _⟩ := hok
      simp only [passed_entry, hoc]
      cases hsv : s.success with
      | none => rw [hsv] at hs; simp at hs
      | some b =>
          cases hdv : s.duration with
          | none => rw [hdv] at hd; simp at hd
          | some d =>
              cases b <;> simp [hsv, hdv]

theorem failed_entry_isSome {fillFn : String → String} {base : Option String}
    {dir : String} {archive : Archive} {j : String}
    (hok : outcome_ok (outcome_of archive j)) :
    (failed_entry fillFn base dir archive j).isSome = true ↔
      ∃ s, outcome_of archive j = .doc s ∧ s.success = some false := by
  cases hoc : outcome_of archive j with
  | absent => simp [failed_entry, hoc]
  | malformed => rw [hoc] at hok; exact absurd hok id
  | doc s =>
      rw [hoc] at hok
      obtain ⟨hs, hd, hf⟩ := hok
      simp only [failed_entry, hoc]
      cases hsv : s.success with
      | none => rw [hsv] at hs; simp at hs
      | some b =>
          cases hdv : s.duration with
          | none => rw [hdv] at hd; simp at hd
          | some d =>
              cases b with
              | true => simp [hsv, hdv]
              | false =>
                  have hfs := hf hsv
                  cases hfv : s.failure_reason with
                  | none => rw [hfv] at hfs; simp at hfs
                  | some r => simp [hsv, hdv, hfv]

theorem classify_jobs_error (fillFn : String → String) (base : Option String)
    (dir : String) (archive : Archive) :
    ∀ (jobs : List String) (acc : Classified),
      (∃ j ∈ jobs, outcome_of archive j = .malformed) →
      ∃ err, classify_jobs fillFn base dir archive jobs acc = .error err := by
  intro jobs
  induction jobs with
  | nil => rintro acc ⟨j, hj, _⟩; exact absurd hj (List.not_mem_nil _)
  | cons j rest ih =>
      rintro acc ⟨j0, hj0, hmal⟩
      simp only [classify_jobs]
      cases hc : classify_job fillFn base dir acc j (outcome_of archive j) with
      | error err => exact ⟨err, rfl⟩
      | ok acc2 =>
          have hj0r : j0 ∈ rest := by
            rcases List.mem_cons.mp hj0 with rfl | h
            · rw [hmal] at hc
              simp [classify_job] at hc
            · exact h
          exact ih acc2 ⟨j0, hj0r, hmal⟩

/-! ## Claim C7: result classification -/

/-- Claim C7 (amended): provided every enumerated outcome file parses and
carries a `success` value and a `duration`, and every failed outcome
carries a `failure_reason`, the classifier assigns each enumerated job to
exactly one class — Hung exactly when the outcome file does not exist,
Passed exactly when it parses with `success` true, Failed exactly when it
parses with `success` false — and a failed job's entry carries its
recorded `failure_reason` transformed only by the line-wrapping function
(`fill(.., 75)`) and the four-space indentation.  The provisos are forced
by `c7_classifier_counterexample`: a failed outcome without a
`failure_reason` makes report generation raise instead of classifying. -/
theorem c7_classifier (fillFn : String → String) (base : Option String) (dir : String)
    (archive : Archive)
    (H : ∀ j ∈ get_jobs archive, outcome_ok (outcome_of archive j)) :
    ∃ C : Classified,
      build_email_body fillFn base dir archive = .ok C ∧
      (∀ j ∈ get_jobs archive,
        (j ∈ C.hung.map Prod.fst ↔ outcome_of archive j = .absent) ∧
        (j ∈ C.passed.map Prod.fst ↔
          ∃ s, outcome_of archive j = .doc s ∧ s.success = some true) ∧
        (j ∈ C.failed.map Prod.fst ↔
          ∃ s, outcome_of archive j = .doc s ∧ s.success = some false)) ∧
      (∀ j ∈ get_jobs archive, ∀ (s : Summary) (r : String) (d : Int),
        outcome_of archive j = .doc s → s.success = some false →
        s.failure_reason = some r → s.duration = some d →
        (j, fail_templ_format j (pyStr s.description) d
          (log_line_of base dir j) (sentry_line_of s.sentry_events)
          (indent_reason fillFn r)) ∈ C.failed) := by
  refine ⟨_, build_email_body_ok fillFn base dir archive H, ?_, ?_⟩
  · intro j hj
    refine ⟨?_, ?_, ?_⟩
    · rw [mem_fst_sectionOf, hung_entry_isSome]
      exact ⟨fun h => h.2, fun h => ⟨hj, h⟩⟩
    · rw [mem_fst_sectionOf, passed_entry_isSome (H j hj)]
      exact ⟨fun h => h.2, fun h => ⟨hj, h⟩⟩
    · rw [mem_fst_sectionOf, failed_entry_isSome (H j hj)]
      exact ⟨fun h => h.2, fun h => ⟨hj, h⟩⟩
  · intro j hj s r d hoc hsv hfv hdv
    simp only [sectionOf, List.mem_filterMap]
    refine ⟨j, hj, ?_⟩
    simp [failed_entry, hoc, hsv, hfv, hdv]

/-- Witness for C7 on the archive `c7archive` (one passed, one hung, one
failed job, the failed one with reason `boom`). -/
theorem c7_classifier_witness :
    (∀ j ∈ get_jobs c7archive, outcome_ok (outcome_of c7archive j)) ∧
    (∃ C : Classified,
      build_email_body (fun s => s) none "a" c7archive = .ok C ∧
      (∀ j ∈ get_jobs c7archive,
        (j ∈ C.hung.map Prod.fst ↔ outcome_of c7archive j = .absent) ∧
        (j ∈ C.passed.map Prod.fst ↔
          ∃ s, outcome_of c7archive j = .doc s ∧ s.success = some true) ∧
        (j ∈ C.failed.map Prod.fst ↔
          ∃ s, outcome_of c7archive j = .doc s ∧ s.success = some false)) ∧
      (∀ j ∈ get_jobs c7archive, ∀ (s : Summary) (r : String) (d : Int),
        outcome_of c7archive j = .doc s → s.success = some false →
        s.failure_reason = some r → s.duration = some d →
        (j, fail_templ_format j (pyStr s.description) d
          (log_line_of none "a" j) (sentry_line_of s.sentry_events)
          (indent_reason (fun s => s) r)) ∈ C.failed)) := by
  have H : ∀ j ∈ get_jobs c7archive, outcome_ok (outcome_of c7archive j) := by decide
  exact ⟨H, c7_classifier (fun s => s) none "a" c7archive H⟩

/-- Counterexample to C7 as stated: in `c7bad` the single job's outcome
file exists, parses, and has `success: false`, so the claim classifies it
as Failed; but no `failure_reason` is recorded, `fill(None, 75)` raises
`AttributeError` (`None` has no `expandtabs`), and report generation
aborts without classifying the job at all. -/
theorem c7_classifier_counterexample :
    build_email_body (fun s => s) none "a" c7bad = .error .attributeError ∧
    ∀ C : Classified, build_email_body (fun s => s) none "a" c7bad ≠ .ok C := by
  refine ⟨rfl, fun C h => ?_⟩
  rw [show build_email_body (fun s => s) none "a" c7bad = .error .attributeError from rfl] at h
  exact Except.noConfusion h

/-! ## Claim C8: unparseable outcome files -/

/-- Claim C8 (amended): a job whose outcome file exists but fails to parse
is neither dropped, classified as Hung, nor classified as Failed — the
parse exception escapes the classifier and the whole report generation
fails with an error. -/
theorem c8_parse_failure_aborts (fillFn : String → String) (base : Option String)
    (dir : String) (archive : Archive)
    (H : ∃ j ∈ get_jobs archive, outcome_of archive j = .malformed) :
    ∃ err, build_email_body fillFn base dir archive = .error err := by
  unfold build_email_body
  exact classify_jobs_error fillFn base dir archive _ _ H

/-- Witness for C8 on the archive `c8archive`. -/
theorem c8_parse_failure_aborts_witness :
    (∃ j ∈ get_jobs c8archive, outcome_of c8archive j = .malformed) ∧
    ∃ err, build_email_body (fun s => s) none "a" c8archive = .error err := by
  have H : ∃ j ∈ get_jobs c8archive, outcome_of c8archive j = .malformed :=
    ⟨"1", by decide, by decide⟩
  exact ⟨H, c8_parse_failure_aborts (fun s => s) none "a" c8archive H⟩

/-- Counterexample to C8 as stated: the unparseable outcome of `c8archive`
is not turned into a Failed classification with an unknown reason — the
classifier raises and produces no classification at all. -/
theorem c8_parse_failure_counterexample :
    build_email_body (fun s => s) none "a" c8archive = .error .yamlError ∧
    ∀ C : Classified, build_email_body (fun s => s) none "a" c8archive ≠ .ok C := by
  refine ⟨rfl, fun C h => ?_⟩
  rw [show build_email_body (fun s => s) none "a" c8archive = .error .yamlError from rfl] at h
  exact Except.noConfusion h

/-! ## Claim C9: enumeration order of jobs -/

/-- Claim C9 (amended): `get_jobs` enumerates exactly the all-digit-named
subdirectories of the archive, sorted ascending in string (lexicographic)
order — which differs from ascending numeric order when ids have different
digit counts — and each classification table lists its jobs as a
subsequence of that enumeration.  The numeric-order reading is refuted by
`c9_enumeration_counterexample`: job `10` precedes job `9`. -/
theorem c9_enumeration_order (fillFn : String → String) (base : Option String)
    (dir : String) (archive : Archive)
    (H : ∀ j ∈ get_jobs archive, outcome_ok (outcome_of archive j)) :
    List.Chain' (fun a b => strLe a b = true) (get_jobs archive) ∧
    (∀ j, j ∈ get_jobs archive ↔ ∃ en, (j, en) ∈ archive ∧ is_job_dir j en = true) ∧
    ∃ C : Classified,
      build_email_body fillFn base dir archive = .ok C ∧
      (C.failed.map Prod.fst).Sublist (get_jobs archive) ∧
      (C.hung.map Prod.fst).Sublist (get_jobs archive) ∧
      (C.passed.map Prod.fst).Sublist (get_jobs archive) := by
  refine ⟨chain'_pySorted _ _, ?_, ?_⟩
  · intro j
    unfold get_jobs
    rw [mem_pySorted]
    simp only [List.mem_map, List.mem_filter]
    constructor
    · rintro ⟨⟨j2, en⟩, ⟨hmem, hjd⟩, rfl⟩
      exact ⟨en, hmem, hjd⟩
    · rintro ⟨en, hmem, hjd⟩
      exact ⟨(j, en), ⟨hmem, hjd⟩, rfl⟩
  · exact ⟨_, build_email_body_ok fillFn base dir archive H,
      sectionOf_fst_sublist _ _, sectionOf_fst_sublist _ _, sectionOf_fst_sublist _ _⟩

/-- Witness for C9 on the archive `c9archive`. -/
theorem c9_enumeration_order_witness :
    (∀ j ∈ get_jobs c9archive, outcome_ok (outcome_of c9archive j)) ∧
    (List.Chain' (fun a b => strLe a b = true) (get_jobs c9archive) ∧
      (∀ j, j ∈ get_jobs c9archive ↔
        ∃ en, (j, en) ∈ c9archive ∧ is_job_dir j en = true) ∧
      ∃ C : Classified,
        build_email_body (fun s => s) none "a" c9archive = .ok C ∧
        (C.failed.map Prod.fst).Sublist (get_jobs c9archive) ∧
        (C.hung.map Prod.fst).Sublist (get_jobs c9archive) ∧
        (C.passed.map Prod.fst).Sublist (get_jobs c9archive)) := by
  have H : ∀ j ∈ get_jobs c9archive, outcome_ok (outcome_of c9archive j) := by decide
  exact ⟨H, c9_enumeration_order (fun s => s) none "a" c9archive H⟩

/-- Counterexample to C9 as stated: with jobs `9` and `10` the enumeration
is `["10", "9"]` — ascending string order — not the ascending numeric
order `["9", "10"]`; job 10 precedes job 9. -/
theorem c9_enumeration_counterexample :
    get_jobs c9archive = ["10", "9"] ∧ get_jobs c9archive ≠ ["9", "10"] := by
  refine ⟨rfl, fun h => ?_⟩
  rw [show get_jobs c9archive = ["10", "9"] from rfl] at h
  exact absurd h (by decide)
